import Mathlib

/-!
Verification of the relay core of the claude-code-chrome-wsl-windows bridge.

The development shallowly embeds the operational parts of the repository:

* `CDPClient` — the Chrome DevTools Protocol client (`cdp-client.js`):
  pending-command table keyed by a monotonic integer id, response matching
  in `handleMessage`, and the 30-second timeout purge in `send`.
* `CDPHost` — the multi-client Windows host (`native-messaging.js`,
  `CDPHost` class): live-client table, `requestToClient` routing table,
  `sendResponse` / `sendError` delivery, and teardown on client close.
* `NativeMessaging` — the 4-byte little-endian length-prefixed codec
  (`NativeMessaging.send` / `handleData`).
* `WebSocketClient` — the WSL bridge uplink reconnect loop
  (`websocket-client.js`, `attemptReconnect`).
* `WSLBridge` — the frame forwarders (`wsl-bridge.js`,
  `forwardToWindows` / `forwardToClaudeCode`).
* `WSClient` — guarded WebSocket sends that silently drop when the socket
  is not OPEN.

JavaScript `Map` objects are embedded as association lists where `set`
replaces any existing binding for the key and `delete` removes the key;
timers and asynchronous callbacks are embedded as explicit events consumed
by a step function, reflecting the single-threaded event loop.
-/

namespace CDPClient

/-- A CDP response frame as consumed by `CDPClient.handleMessage`:
`{id, error?, result?}`; `error` carries `error.message`. -/
structure Frame where
  id : Nat
  error : Option String
  result : String
deriving Repr, DecidableEq

/-- Outcome delivered to a pending caller: promise resolution or rejection. -/
inductive Outcome where
  | resolved (result : String)
  | rejected (msg : String)
deriving Repr, DecidableEq

/-- A settled pending command: which id settled, and with what outcome. -/
structure Resolution where
  id : Nat
  outcome : Outcome
deriving Repr, DecidableEq

/-- The outcome `handleMessage` delivers for a frame is computed from the
frame alone: reject with the embedded error message when present,
otherwise resolve with the result. -/
def resolutionOf (m : Frame) : Resolution :=
  match m.error with
  | some e => ⟨m.id, Outcome.rejected e⟩
  | none => ⟨m.id, Outcome.resolved m.result⟩

/-- `Map.delete` on a set of pending integer ids. -/
def deleteId (pending : List Nat) (i : Nat) : List Nat :=
  pending.filter (fun j => j != i)

/-- `CDPClient.handleMessage`: if the frame's id has a pending command,
delete the entry and settle it from the frame; otherwise do nothing. -/
def handleMessage (pending : List Nat) (m : Frame) : List Nat × Option Resolution :=
  if m.id ∈ pending then (deleteId pending m.id, some (resolutionOf m))
  else (pending, none)

/-- Feed a list of response frames to `handleMessage` in arrival order,
collecting the settlements it performs. -/
def runFrames (pending : List Nat) : List Frame → List Nat × List Resolution
  | [] => (pending, [])
  | m :: ms =>
    match handleMessage pending m with
    | (p, some r) =>
      let o := runFrames p ms
      (o.1, r :: o.2)
    | (p, none) =>
      runFrames p ms

theorem deleteId_mem (pending : List Nat) (i j : Nat) :
    j ∈ deleteId pending i ↔ j ∈ pending ∧ j ≠ i := by
  simp [deleteId, List.mem_filter]

theorem filterMap_settle_congr (ms : List Frame) (p q : List Nat)
    (h : ∀ m ∈ ms, (m.id ∈ p ↔ m.id ∈ q)) :
    ms.filterMap (fun m => if m.id ∈ p then some (resolutionOf m) else none)
      = ms.filterMap (fun m => if m.id ∈ q then some (resolutionOf m) else none) := by
  induction ms with
  | nil => rfl
  | cons m ms ih =>
    simp only [List.filterMap_cons]
    rw [ih (fun a ha => h a (List.mem_cons_of_mem m ha)),
      if_congr (h m (List.mem_cons_self m ms)) rfl rfl]

/-- Each settlement produced by a run of `handleMessage` is determined by the
frame bearing the settled id alone: with pairwise-distinct frame ids, the
settlements are exactly `resolutionOf` of those frames whose id was pending,
in arrival order. -/
theorem runFrames_resolutions (pending : List Nat) (ms : List Frame)
    (hnd : (ms.map Frame.id).Nodup) :
    (runFrames pending ms).2 =
      ms.filterMap (fun m => if m.id ∈ pending then some (resolutionOf m) else none) := by
  induction ms generalizing pending with
  | nil => rfl
  | cons m ms ih =>
    have hnd2 : (ms.map Frame.id).Nodup := (List.nodup_cons.mp hnd).2
    have hne : ∀ m2 ∈ ms, m2.id ≠ m.id := by
      intro m2 hm2 he
      exact (List.nodup_cons.mp hnd).1 (he ▸ List.mem_map_of_mem Frame.id hm2)
    by_cases hmem : m.id ∈ pending
    · have hcong :
        ms.filterMap (fun m2 => if m2.id ∈ deleteId pending m.id then some (resolutionOf m2) else none)
          = ms.filterMap (fun m2 => if m2.id ∈ pending then some (resolutionOf m2) else none) :=
        filterMap_settle_congr ms _ _ (fun m2 hm2 => by
          rw [deleteId_mem]
          exact ⟨fun h => h.1, fun h => ⟨h, hne m2 hm2⟩⟩)
      simp only [runFrames, handleMessage, if_pos hmem, List.filterMap_cons]
      rw [ih (deleteId pending m.id) hnd2, hcong]
    · simp only [runFrames, handleMessage, if_neg hmem, List.filterMap_cons]
      rw [ih pending hnd2]

/-- C1: for interleaved pending commands, each with its own id, and response
frames arriving in any order, each pending command is settled with exactly the
content of the frame bearing its own id — the settlements are the image of the
arriving frames under `resolutionOf`, filtered to pending ids, so matching is
by id alone, never by arrival position. -/
theorem C1_responses_matched_by_id_alone (pending : List Nat) (ms : List Frame)
    (hnd : (ms.map Frame.id).Nodup) :
    (runFrames pending ms).2 =
      ms.filterMap (fun m => if m.id ∈ pending then some (resolutionOf m) else none) ∧
    ∀ m ∈ ms, m.id ∈ pending → resolutionOf m ∈ (runFrames pending ms).2 := by
  refine ⟨runFrames_resolutions pending ms hnd, ?_⟩
  intro m hm hp
  rw [runFrames_resolutions pending ms hnd]
  exact List.mem_filterMap.mpr ⟨m, hm, by simp [hp]⟩

/-- Witness for C1: ids 1, 2, 3 pending, responses arriving in order 3, 1, 2. -/
theorem C1_responses_matched_by_id_alone_witness :
    (([Frame.mk 3 none "r3", Frame.mk 1 none "r1", Frame.mk 2 (some "boom") "x"].map
        Frame.id).Nodup) ∧
    ((runFrames [1, 2, 3]
        [Frame.mk 3 none "r3", Frame.mk 1 none "r1", Frame.mk 2 (some "boom") "x"]).2 =
      [Frame.mk 3 none "r3", Frame.mk 1 none "r1", Frame.mk 2 (some "boom") "x"].filterMap
        (fun m => if m.id ∈ [1, 2, 3] then some (resolutionOf m) else none) ∧
    ∀ m ∈ [Frame.mk 3 none "r3", Frame.mk 1 none "r1", Frame.mk 2 (some "boom") "x"],
      m.id ∈ [1, 2, 3] →
        resolutionOf m ∈ (runFrames [1, 2, 3]
          [Frame.mk 3 none "r3", Frame.mk 1 none "r1", Frame.mk 2 (some "boom") "x"]).2) :=
  ⟨by decide, C1_responses_matched_by_id_alone [1, 2, 3] _ (by decide)⟩

/-- State of one `CDPClient`: the monotonic id counter `messageId` and the set
of ids with a live `PendingCommand` entry. -/
structure ClientState where
  messageId : Nat
  pending : List Nat
deriving Repr, DecidableEq

/-- Events consumed by the client's single event loop: a new `send` (the code
allocates `++messageId` and registers the pending entry), an incoming response
frame, or the firing of a command's 30-second timeout callback. -/
inductive Event where
  | send
  | response (m : Frame)
  | timeoutFire (i : Nat)
deriving Repr, DecidableEq

/-- A destruction of a pending entry: settled by a matching response frame or
rejected with the timeout error by the timer callback. -/
inductive Destruction where
  | byResponse (r : Resolution)
  | byTimeout (i : Nat)
deriving Repr, DecidableEq

/-- The id whose pending entry the destruction removed. -/
def Destruction.did : Destruction → Nat
  | .byResponse r => r.id
  | .byTimeout i => i

/-- One event-loop step of `CDPClient`: `send` allocates the next id and
registers it; a response settles and deletes a pending id (`handleMessage`);
the timeout callback checks `pendingCommands.has(id)` and only then deletes
and rejects — otherwise each is a no-op. -/
def step (s : ClientState) : Event → ClientState × Option Destruction
  | .send => (⟨s.messageId + 1, (s.messageId + 1) :: s.pending⟩, none)
  | .response m =>
    if m.id ∈ s.pending then
      (⟨s.messageId, deleteId s.pending m.id⟩, some (Destruction.byResponse (resolutionOf m)))
    else (s, none)
  | .timeoutFire i =>
    if i ∈ s.pending then
      (⟨s.messageId, deleteId s.pending i⟩, some (Destruction.byTimeout i))
    else (s, none)

/-- Run a list of event-loop events, collecting the destructions performed. -/
def runEvents (s : ClientState) : List Event → ClientState × List Destruction
  | [] => (s, [])
  | e :: es =>
    match step s e with
    | (s2, some d) =>
      let o := runEvents s2 es
      (o.1, d :: o.2)
    | (s2, none) => runEvents s2 es

/-- How many destructions in the list removed the entry of id `i`. -/
def destCount (i : Nat) (ds : List Destruction) : Nat :=
  (ds.filter (fun d => d.did == i)).length

/-- Every pending id was allocated by the monotonic counter, hence is at most
`messageId`; holds for every state the code can reach. -/
def Bounded (s : ClientState) : Prop := ∀ j ∈ s.pending, j ≤ s.messageId

instance decBounded (s : ClientState) : Decidable (Bounded s) :=
  inferInstanceAs (Decidable (∀ j ∈ s.pending, j ≤ s.messageId))

theorem destCount_cons (i : Nat) (d : Destruction) (ds : List Destruction) :
    destCount i (d :: ds) = (if d.did = i then 1 else 0) + destCount i ds := by
  by_cases h : d.did = i <;> simp [destCount, List.filter_cons, h, Nat.add_comm]

theorem resolutionOf_id (m : Frame) : (resolutionOf m).id = m.id := by
  rcases m with ⟨i, e, r⟩
  cases e <;> rfl

theorem step_bounded (s : ClientState) (e : Event) (hB : Bounded s) :
    Bounded (step s e).1 := by
  cases e with
  | send =>
    simp only [step]
    intro j hj
    rcases List.mem_cons.mp hj with h | h
    · exact Nat.le_of_eq h
    · exact Nat.le_succ_of_le (hB j h)
  | response m =>
    by_cases h : m.id ∈ s.pending
    · simp only [step, if_pos h]
      intro j hj
      exact hB j ((deleteId_mem s.pending m.id j).mp hj).1
    · simpa [step, h] using hB
  | timeoutFire i =>
    by_cases h : i ∈ s.pending
    · simp only [step, if_pos h]
      intro j hj
      exact hB j ((deleteId_mem s.pending i j).mp hj).1
    · simpa [step, h] using hB

/-- Once id `i` is absent from the pending table and below the counter, no
later event can destroy it again: new sends allocate strictly larger ids. -/
theorem destCount_zero_of_absent (es : List Event) :
    ∀ s : ClientState, Bounded s → ∀ i, i ∉ s.pending → i ≤ s.messageId →
      destCount i (runEvents s es).2 = 0 := by
  induction es with
  | nil => intro s _ i _ _; rfl
  | cons e es ih =>
    intro s hB i hni hle
    have hB2 := step_bounded s e hB
    cases e with
    | send =>
      simp only [runEvents, step]
      refine ih _ hB2 i ?_ (Nat.le_succ_of_le hle)
      intro hmem
      rcases List.mem_cons.mp hmem with h | h
      · omega
      · exact hni h
    | response m =>
      by_cases h : m.id ∈ s.pending
      · have hne : m.id ≠ i := fun he => hni (he ▸ h)
        simp only [runEvents, step, if_pos h]
        rw [destCount_cons]
        have hid : (Destruction.byResponse (resolutionOf m)).did = m.id := by
          simp [Destruction.did, resolutionOf_id]
        have hz : destCount i (runEvents ⟨s.messageId, deleteId s.pending m.id⟩ es).2 = 0 := by
          refine ih _ (by simpa [step, h] using hB2) i ?_ hle
          rw [deleteId_mem]; exact fun hc => hni hc.1
        rw [hid, if_neg hne, hz]
      · simp only [runEvents, step, if_neg h]
        exact ih s hB i hni hle
    | timeoutFire j =>
      by_cases h : j ∈ s.pending
      · have hne : j ≠ i := fun he => hni (he ▸ h)
        simp only [runEvents, step, if_pos h]
        rw [destCount_cons]
        have : destCount i (runEvents ⟨s.messageId, deleteId s.pending j⟩ es).2 = 0 := by
          refine ih _ (by simpa [step, h] using hB2) i ?_ hle
          rw [deleteId_mem]; exact fun hc => hni hc.1
        simp [Destruction.did, hne, this]
      · simp only [runEvents, step, if_neg h]
        exact ih s hB i hni hle

theorem destCount_le_one (es : List Event) :
    ∀ s : ClientState, Bounded s → ∀ i, destCount i (runEvents s es).2 ≤ 1 := by
  induction es with
  | nil => intro s _ i; simp [runEvents, destCount]
  | cons e es ih =>
    intro s hB i
    have hB2 := step_bounded s e hB
    cases e with
    | send =>
      simpa only [runEvents, step] using ih _ hB2 i
    | response m =>
      by_cases h : m.id ∈ s.pending
      · simp only [runEvents, step, if_pos h]
        rw [destCount_cons]
        have hid : (Destruction.byResponse (resolutionOf m)).did = m.id := by
          simp [Destruction.did, resolutionOf_id]
        by_cases he : m.id = i
        · have hz : destCount i (runEvents ⟨s.messageId, deleteId s.pending m.id⟩ es).2 = 0 := by
            refine destCount_zero_of_absent es _ (by simpa [step, h] using hB2) i ?_
              (he ▸ hB m.id h)
            rw [deleteId_mem]; exact fun hc => hc.2 (he ▸ rfl)
          rw [hz, hid, if_pos he]
        · have := ih _ (by simpa [step, h] using hB2) i
          rw [hid, if_neg he]
          simpa [step, h] using this
      · simp only [runEvents, step, if_neg h]
        exact ih s hB i
    | timeoutFire j =>
      by_cases h : j ∈ s.pending
      · simp only [runEvents, step, if_pos h]
        rw [destCount_cons]
        by_cases he : j = i
        · have hz : destCount i (runEvents ⟨s.messageId, deleteId s.pending j⟩ es).2 = 0 := by
            refine destCount_zero_of_absent es _ (by simpa [step, h] using hB2) i ?_
              (he ▸ hB j h)
            rw [deleteId_mem]; exact fun hc => hc.2 (he ▸ rfl)
          rw [hz]
          simp [Destruction.did, he]
        · have := ih _ (by simpa [step, h] using hB2) i
          simpa [Destruction.did, he, step, h] using this
      · simp only [runEvents, step, if_neg h]
        exact ih s hB i

/-- A pending entry is destroyed at least once in any trace in which its
timeout callback eventually fires: either something destroyed it earlier, or
the firing callback finds it pending and destroys it. -/
theorem destCount_pos (es : List Event) :
    ∀ (s : ClientState) (i : Nat), i ∈ s.pending → Event.timeoutFire i ∈ es →
      1 ≤ destCount i (runEvents s es).2 := by
  induction es with
  | nil =>
    intro s i _ he
    simp at he
  | cons e es ih =>
    intro s i hp he
    cases e with
    | send =>
      have he2 : Event.timeoutFire i ∈ es := by
        rcases List.mem_cons.mp he with h | h
        · exact absurd h (by simp)
        · exact h
      simp only [runEvents, step]
      exact ih _ i (List.mem_cons_of_mem _ hp) he2
    | response m =>
      by_cases hm : m.id ∈ s.pending
      · by_cases hmi : m.id = i
        · simp only [runEvents, step, if_pos hm]
          rw [destCount_cons]
          have hd : (Destruction.byResponse (resolutionOf m)).did = i := by
            simp [Destruction.did, resolutionOf_id, hmi]
          rw [hd, if_pos rfl]
          omega
        · have he2 : Event.timeoutFire i ∈ es := by
            rcases List.mem_cons.mp he with h | h
            · exact absurd h (by simp)
            · exact h
          simp only [runEvents, step, if_pos hm]
          rw [destCount_cons]
          have hrest := ih ⟨s.messageId, deleteId s.pending m.id⟩ i
            ((deleteId_mem s.pending m.id i).mpr ⟨hp, fun hh => hmi hh.symm⟩) he2
          omega
      · have he2 : Event.timeoutFire i ∈ es := by
          rcases List.mem_cons.mp he with h | h
          · exact absurd h (by simp)
          · exact h
        simp only [runEvents, step, if_neg hm]
        exact ih s i hp he2
    | timeoutFire j =>
      by_cases hj : j = i
      · subst hj
        simp only [runEvents, step, if_pos hp]
        rw [destCount_cons]
        have hd : (Destruction.byTimeout j).did = j := rfl
        rw [hd, if_pos rfl]
        exact Nat.le_add_right 1 _
      · have he2 : Event.timeoutFire i ∈ es := by
          rcases List.mem_cons.mp he with h | h
          · injection h with h2
            exact absurd h2.symm hj
          · exact h
        by_cases hjm : j ∈ s.pending
        · simp only [runEvents, step, if_pos hjm]
          rw [destCount_cons]
          have hrest := ih ⟨s.messageId, deleteId s.pending j⟩ i
            ((deleteId_mem s.pending j i).mpr ⟨hp, fun hh => hj hh.symm⟩) he2
          omega
        · simp only [runEvents, step, if_neg hjm]
          exact ih s i hp he2

/-- C2: every pending command entry is destroyed at most once over any event
sequence — by a matching response or by its timeout firing, never both — it
is destroyed at least once on any trace containing its timeout firing (so
exactly once), and a response or timeout firing for an id with no pending
entry is a no-op: same state, nothing emitted, no error. -/
theorem C2_pending_destroyed_exactly_once (s : ClientState) (hB : Bounded s) :
    (∀ es i, destCount i (runEvents s es).2 ≤ 1) ∧
    (∀ es i, i ∈ s.pending → Event.timeoutFire i ∈ es →
      1 ≤ destCount i (runEvents s es).2) ∧
    (∀ m : Frame, m.id ∉ s.pending → step s (Event.response m) = (s, none)) ∧
    (∀ i, i ∉ s.pending → step s (Event.timeoutFire i) = (s, none)) := by
  refine ⟨fun es i => destCount_le_one es s hB i,
    fun es i => destCount_pos es s i, ?_, ?_⟩
  · intro m hm; simp [step, hm]
  · intro i hi; simp [step, hi]

/-- Witness for C2: three pending commands; id 2 times out first, then its
late response arrives and is dropped — its entry is destroyed exactly once. -/
theorem C2_pending_destroyed_exactly_once_witness :
    Bounded ⟨3, [1, 2, 3]⟩ ∧
    destCount 2 (runEvents ⟨3, [1, 2, 3]⟩
      [Event.timeoutFire 2, Event.response (Frame.mk 2 none "late")]).2 ≤ 1 ∧
    1 ≤ destCount 2 (runEvents ⟨3, [1, 2, 3]⟩
      [Event.timeoutFire 2, Event.response (Frame.mk 2 none "late")]).2 ∧
    step ⟨3, [1, 2, 3]⟩ (Event.response (Frame.mk 9 none "r")) = (⟨3, [1, 2, 3]⟩, none) :=
  ⟨by decide,
   (C2_pending_destroyed_exactly_once ⟨3, [1, 2, 3]⟩ (by decide)).1
     [Event.timeoutFire 2, Event.response (Frame.mk 2 none "late")] 2,
   (C2_pending_destroyed_exactly_once ⟨3, [1, 2, 3]⟩ (by decide)).2.1
     [Event.timeoutFire 2, Event.response (Frame.mk 2 none "late")] 2
     (by decide) (by decide),
   (C2_pending_destroyed_exactly_once ⟨3, [1, 2, 3]⟩ (by decide)).2.2.1
     (Frame.mk 9 none "r") (by decide)⟩

end CDPClient

namespace CDPHost

/-- The payload of a completed tool call: `{requestId, result}` on success or
`{requestId, error}` on failure, exactly as built by `sendResponse` and
`sendError`. -/
inductive Payload where
  | result (requestId : String) (r : String)
  | err (requestId : String) (e : String)
deriving Repr, DecidableEq

/-- The envelope sent back over the session's WebSocket:
`{id, direction: from-chrome, timestamp, payload}`. -/
structure Envelope where
  id : String
  direction : String
  timestamp : Nat
  payload : Payload
deriving Repr, DecidableEq

/-- State of the multi-client `CDPHost`: the client-id counter, the map of
live clients (represented by their ids), and the `requestToClient` route
table keyed by the stringified request id. -/
structure HostState where
  clientCounter : Nat
  clients : List Nat
  requestToClient : List (String × Nat)
deriving Repr, DecidableEq

/-- The freshly started host: no clients, no routes. -/
def initState : HostState := ⟨0, [], []⟩

/-- `Map.prototype.get` on the route table. -/
def lookupRoute : List (String × Nat) → String → Option Nat
  | [], _ => none
  | p :: ps, k => if p.1 = k then some p.2 else lookupRoute ps k

/-- `Map.prototype.set` on the route table: replaces any existing binding. -/
def setRoute (m : List (String × Nat)) (k : String) (v : Nat) : List (String × Nat) :=
  (k, v) :: m.filter (fun p => p.1 != k)

/-- `Map.prototype.delete` on the route table. -/
def deleteRoute (m : List (String × Nat)) (k : String) : List (String × Nat) :=
  m.filter (fun p => p.1 != k)

/-- `CDPHost.sendResponse`: look up the owning client via `requestToClient`,
drop the response (warn only, no state change) when the route or the client
is gone, otherwise delete the route and send the `from-chrome` envelope to
that client alone. -/
def sendResponse (s : HostState) (now : Nat) (id : String) (result : String) :
    HostState × Option (Nat × Envelope) :=
  match lookupRoute s.requestToClient id with
  | none => (s, none)
  | some clientId =>
    if clientId ∈ s.clients then
      (⟨s.clientCounter, s.clients, deleteRoute s.requestToClient id⟩,
       some (clientId, ⟨id, "from-chrome", now, Payload.result id result⟩))
    else (s, none)

/-- `CDPHost.sendError`: identical routing to `sendResponse`, with an error
payload. -/
def sendError (s : HostState) (now : Nat) (id : String) (error : String) :
    HostState × Option (Nat × Envelope) :=
  match lookupRoute s.requestToClient id with
  | none => (s, none)
  | some clientId =>
    if clientId ∈ s.clients then
      (⟨s.clientCounter, s.clients, deleteRoute s.requestToClient id⟩,
       some (clientId, ⟨id, "from-chrome", now, Payload.err id error⟩))
    else (s, none)

/-- Relay-core events as handled by `CDPHost.start`: a new WebSocket
connection, a request message from a live client (the `onMessage` handler;
a closed client's handler can no longer fire, hence the liveness guard),
completion of a tool call (success or failure), and a client disconnect. -/
inductive HEvent where
  | connect
  | message (clientId : Nat) (reqId : String)
  | respond (reqId : String) (result : String)
  | fail (reqId : String) (error : String)
  | close (clientId : Nat)
deriving Repr, DecidableEq

/-- One event-loop step of the host. `connect` allocates `++clientCounter`
and registers the client; `message` records `requestToClient.set(String(id),
clientId)`; `respond`/`fail` apply `sendResponse`/`sendError`; `close`
deletes the client and purges every route owned by it. -/
def hstep (s : HostState) : HEvent → HostState
  | .connect =>
    ⟨s.clientCounter + 1, (s.clientCounter + 1) :: s.clients, s.requestToClient⟩
  | .message c r =>
    if c ∈ s.clients then
      ⟨s.clientCounter, s.clients, setRoute s.requestToClient r c⟩
    else s
  | .respond r result => (sendResponse s 0 r result).1
  | .fail r e => (sendError s 0 r e).1
  | .close c =>
    ⟨s.clientCounter, s.clients.filter (fun x => x != c),
     s.requestToClient.filter (fun p => p.2 != c)⟩

/-- Run the host event loop from a state. -/
def runHost (s : HostState) : List HEvent → HostState
  | [] => s
  | e :: es => runHost (hstep s e) es

/-- Every route in `requestToClient` is owned by a currently live client. -/
def RoutesLive (s : HostState) : Prop :=
  ∀ p ∈ s.requestToClient, p.2 ∈ s.clients

instance decRoutesLive (s : HostState) : Decidable (RoutesLive s) :=
  inferInstanceAs (Decidable (∀ p ∈ s.requestToClient, p.2 ∈ s.clients))

theorem lookupRoute_mem (m : List (String × Nat)) (k : String) (c : Nat)
    (h : lookupRoute m k = some c) : (k, c) ∈ m := by
  induction m with
  | nil => simp [lookupRoute] at h
  | cons p ps ih =>
    by_cases hk : p.1 = k
    · simp only [lookupRoute, if_pos hk] at h
      have hpc : p = (k, c) := by
        cases h
        rw [← hk]
      rw [← hpc]
      exact List.mem_cons_self p ps
    · simp only [lookupRoute, if_neg hk] at h
      exact List.mem_cons_of_mem p (ih h)

theorem hstep_routesLive (s : HostState) (e : HEvent) (hL : RoutesLive s) :
    RoutesLive (hstep s e) := by
  cases e with
  | connect =>
    intro p hp
    exact List.mem_cons_of_mem _ (hL p hp)
  | message c r =>
    by_cases hc : c ∈ s.clients
    · simp only [hstep, if_pos hc]
      intro p hp
      rcases List.mem_cons.mp hp with h | h
      · rw [h]; exact hc
      · exact hL p (List.mem_filter.mp h).1
    · simpa [hstep, hc] using hL
  | respond r result =>
    simp only [hstep, sendResponse]
    cases hlk : lookupRoute s.requestToClient r with
    | none => exact hL
    | some c =>
      by_cases hc : c ∈ s.clients
      · simp only [if_pos hc]
        intro p hp
        exact hL p (List.mem_filter.mp hp).1
      · simp only [if_neg hc]
        exact hL
  | fail r e2 =>
    simp only [hstep, sendError]
    cases hlk : lookupRoute s.requestToClient r with
    | none => exact hL
    | some c =>
      by_cases hc : c ∈ s.clients
      · simp only [if_pos hc]
        intro p hp
        exact hL p (List.mem_filter.mp hp).1
      · simp only [if_neg hc]
        exact hL
  | close c =>
    intro p hp
    simp only [hstep, List.mem_filter] at hp ⊢
    exact ⟨hL p hp.1, hp.2⟩

/-- C5: from the freshly started host, after any sequence of connections,
requests, completions and disconnects, every route in the request-to-session
table is owned by a live session — no route of a destroyed session survives
its teardown. -/
theorem C5_routes_always_live (es : List HEvent) : RoutesLive (runHost initState es) := by
  suffices h : ∀ s : HostState, RoutesLive s → RoutesLive (runHost s es) by
    exact h initState (by intro p hp; simp [initState] at hp)
  induction es with
  | nil => exact fun s hL => hL
  | cons e es ih => exact fun s hL => ih (hstep s e) (hstep_routesLive s e hL)

/-- C3: on completion of a tool call with correlation id `R` under the
reachable-state invariant: if `R` is routed, `sendResponse`/`sendError`
delete the route and send exactly the `from-chrome` envelope
`{id: R, payload: {requestId: R, result|error}}` to the routed session and
to no other; if no route remains (in particular after the owning session's
teardown purge), the response is dropped silently with no state change. -/
theorem C3_response_routed_then_route_deleted (s : HostState) (hL : RoutesLive s)
    (now : Nat) (r result error : String) :
    (∀ c, lookupRoute s.requestToClient r = some c →
      sendResponse s now r result =
        (⟨s.clientCounter, s.clients, deleteRoute s.requestToClient r⟩,
         some (c, ⟨r, "from-chrome", now, Payload.result r result⟩)) ∧
      sendError s now r error =
        (⟨s.clientCounter, s.clients, deleteRoute s.requestToClient r⟩,
         some (c, ⟨r, "from-chrome", now, Payload.err r error⟩))) ∧
    (lookupRoute s.requestToClient r = none →
      sendResponse s now r result = (s, none) ∧ sendError s now r error = (s, none)) := by
  constructor
  · intro c hc
    have hlive : c ∈ s.clients := hL (r, c) (lookupRoute_mem _ _ _ hc)
    constructor
    · simp only [sendResponse, hc, if_pos hlive]
    · simp only [sendError, hc, if_pos hlive]
  · intro hn
    constructor
    · simp only [sendResponse, hn]
    · simp only [sendError, hn]

/-- Witness for C3: one live session owning route "7"; the response is
delivered to it and the route removed; an unrouted id "9" is dropped. -/
theorem C3_response_routed_then_route_deleted_witness :
    RoutesLive ⟨1, [1], [("7", 1)]⟩ ∧
    (sendResponse ⟨1, [1], [("7", 1)]⟩ 5 "7" "ok" =
      (⟨1, [1], []⟩, some (1, ⟨"7", "from-chrome", 5, Payload.result "7" "ok"⟩)) ∧
     sendError ⟨1, [1], [("7", 1)]⟩ 5 "7" "bad" =
      (⟨1, [1], []⟩, some (1, ⟨"7", "from-chrome", 5, Payload.err "7" "bad"⟩))) ∧
    sendResponse ⟨1, [1], [("7", 1)]⟩ 5 "9" "ok" = (⟨1, [1], [("7", 1)]⟩, none) := by
  have h := C3_response_routed_then_route_deleted ⟨1, [1], [("7", 1)]⟩ (by decide) 5 "7" "ok" "bad"
  have h9 := C3_response_routed_then_route_deleted ⟨1, [1], [("7", 1)]⟩ (by decide) 5 "9" "ok" "bad"
  exact ⟨by decide, by
    have := h.1 1 (by decide)
    simpa [deleteRoute] using this,
    (h9.2 (by decide)).1⟩

/-- C4 is false on the code: with sessions 1 and 2 live and id "7" already
routed to session 1, a request from session 2 with the same id is not
rejected — `requestToClient.set` silently overwrites the route to session 2 —
and the next completed response for "7" is delivered to session 2, so
responses of colliding ids can cross-deliver. -/
theorem C4_counterexample :
    lookupRoute (hstep ⟨2, [2, 1], [("7", 1)]⟩ (HEvent.message 2 "7")).requestToClient "7" =
      some 2 ∧
    lookupRoute (hstep ⟨2, [2, 1], [("7", 1)]⟩ (HEvent.message 2 "7")).requestToClient "7" ≠
      some 1 ∧
    (sendResponse (hstep ⟨2, [2, 1], [("7", 1)]⟩ (HEvent.message 2 "7")) 0 "7" "res").2 =
      some (2, ⟨"7", "from-chrome", 0, Payload.result "7" "res"⟩) := by
  decide

/-- C4 amended: on a request from live session `S` with correlation id `R`,
the relay never rejects: it unconditionally overwrites any existing route so
that `R` maps to `S`, and a subsequently completed response for `R` is
delivered to `S`, the most recent session to register `R` — even if `R` was
previously routed to a different live session. -/
theorem C4_amended_route_overwritten (s : HostState) (c : Nat) (r : String)
    (hc : c ∈ s.clients) (now : Nat) (result : String) :
    lookupRoute (hstep s (HEvent.message c r)).requestToClient r = some c ∧
    (sendResponse (hstep s (HEvent.message c r)) now r result).2 =
      some (c, ⟨r, "from-chrome", now, Payload.result r result⟩) := by
  have h1 : (hstep s (HEvent.message c r)).requestToClient = setRoute s.requestToClient r c := by
    simp [hstep, hc]
  have h2 : lookupRoute (setRoute s.requestToClient r c) r = some c := by
    simp [setRoute, lookupRoute]
  have h3 : (hstep s (HEvent.message c r)).clients = s.clients := by
    simp [hstep, hc]
  refine ⟨by rw [h1]; exact h2, ?_⟩
  simp only [sendResponse, h1, h2, h3, if_pos hc]

/-- Witness for the amended C4: session 2 re-registers id "7" previously
routed to session 1; the response goes to session 2. -/
theorem C4_amended_route_overwritten_witness :
    2 ∈ HostState.clients ⟨2, [2, 1], [("7", 1)]⟩ ∧
    (lookupRoute (hstep ⟨2, [2, 1], [("7", 1)]⟩ (HEvent.message 2 "7")).requestToClient "7" =
       some 2 ∧
     (sendResponse (hstep ⟨2, [2, 1], [("7", 1)]⟩ (HEvent.message 2 "7")) 9 "7" "res").2 =
       some (2, ⟨"7", "from-chrome", 9, Payload.result "7" "res"⟩)) :=
  ⟨by decide, C4_amended_route_overwritten ⟨2, [2, 1], [("7", 1)]⟩ 2 "7" (by decide) 9 "res"⟩

end CDPHost

namespace NativeMessaging

/-- Chrome's native-messaging body-size limit enforced by `send`: 1 MiB. -/
def MAX_MESSAGE_SIZE : Nat := 1024 * 1024

/-- `Buffer.writeUInt32LE`: the 4-byte little-endian length header. -/
def writeUInt32LE (n : Nat) : List Nat :=
  [n % 256, n / 256 % 256, n / 256 / 256 % 256, n / 256 / 256 / 256 % 256]

/-- `Buffer.readUInt32LE(0)`: read the 4-byte little-endian header at the
start of the buffer. -/
def readUInt32LE (b : List Nat) : Nat :=
  b.getD 0 0 + 256 * (b.getD 1 0 + 256 * (b.getD 2 0 + 256 * b.getD 3 0))

/-- A framed message on the wire: length header followed by the body bytes. -/
def encodeFrame (m : List Nat) : List Nat := writeUInt32LE m.length ++ m

/-- `NativeMessaging.send`: reject a body over the 1 MiB cap before anything
is written (the throw is caught and routed to the error handler, so nothing
reaches the stream); otherwise write header then body. -/
def send (m : List Nat) : Option (List Nat) :=
  if m.length > MAX_MESSAGE_SIZE then none else some (encodeFrame m)

/-- The while loop of `NativeMessaging.handleData`, with explicit fuel (each
iteration consumes at least the 4 header bytes, so `b.length` fuel always
suffices): while at least 4 buffered bytes hold a complete frame, extract the
body and continue on the remainder; otherwise keep the buffer for later. -/
def drainAux : Nat → List Nat → List Nat × List (List Nat)
  | 0, b => (b, [])
  | fuel + 1, b =>
    if 4 ≤ b.length then
      if 4 + readUInt32LE b ≤ b.length then
        ((drainAux fuel (b.drop (4 + readUInt32LE b))).1,
          ((b.drop 4).take (readUInt32LE b)) :: (drainAux fuel (b.drop (4 + readUInt32LE b))).2)
      else (b, [])
    else (b, [])

/-- Process a buffer to exhaustion, returning the retained remainder and the
complete message bodies extracted, in order. -/
def drain (b : List Nat) : List Nat × List (List Nat) := drainAux b.length b

/-- `NativeMessaging.handleData`: append the chunk to the accumulation buffer
and consume all complete frames. -/
def handleData (buf chunk : List Nat) : List Nat × List (List Nat) :=
  drain (buf ++ chunk)

/-- Feed a sequence of stdin chunks through `handleData`, threading the
buffer and concatenating the decoded messages. -/
def feed (buf : List Nat) : List (List Nat) → List Nat × List (List Nat)
  | [] => (buf, [])
  | c :: cs =>
    ((feed (handleData buf c).1 cs).1,
      (handleData buf c).2 ++ (feed (handleData buf c).1 cs).2)

/-- The byte stream produced by a sequence of in-cap sends. -/
def encodeStream (msgs : List (List Nat)) : List Nat :=
  (msgs.map encodeFrame).flatten

/-- The byte stream produced by a sequence of arbitrary sends: an over-cap
send writes nothing and later sends proceed unaffected. -/
def sendAll (ms : List (List Nat)) : List Nat :=
  (ms.filterMap send).flatten

theorem drainAux_fuel (f1 : Nat) : ∀ (f2 : Nat) (b : List Nat),
    b.length ≤ f1 → b.length ≤ f2 → drainAux f1 b = drainAux f2 b := by
  induction f1 with
  | zero =>
    intro f2 b h1 _
    have hb : b = [] := List.eq_nil_of_length_eq_zero (Nat.le_zero.mp h1)
    subst hb
    cases f2 <;> simp [drainAux]
  | succ f ih =>
    intro f2 b h1 h2
    by_cases h4 : 4 ≤ b.length
    · obtain ⟨g, rfl⟩ : ∃ g, f2 = g + 1 := ⟨f2 - 1, by omega⟩
      by_cases hc : 4 + readUInt32LE b ≤ b.length
      · have hlen : (b.drop (4 + readUInt32LE b)).length = b.length - (4 + readUInt32LE b) :=
          List.length_drop _ _
        have hr1 : (b.drop (4 + readUInt32LE b)).length ≤ f := by omega
        have hr2 : (b.drop (4 + readUInt32LE b)).length ≤ g := by omega
        simp only [drainAux, if_pos h4, if_pos hc, ih g _ hr1 hr2]
      · simp only [drainAux, if_pos h4, if_neg hc]
    · cases f2 with
      | zero =>
        have hb : b = [] := List.eq_nil_of_length_eq_zero (Nat.le_zero.mp h2)
        subst hb
        simp [drainAux]
      | succ g => simp only [drainAux, if_neg h4]

theorem drain_stuck (b : List Nat)
    (h : b.length < 4 ∨ b.length < 4 + readUInt32LE b) : drain b = (b, []) := by
  unfold drain
  cases hf : b.length with
  | zero =>
    have hb : b = [] := List.eq_nil_of_length_eq_zero hf
    subst hb
    rfl
  | succ f =>
    by_cases h4 : 4 ≤ b.length
    · have hc : ¬ 4 + readUInt32LE b ≤ b.length := by
        rcases h with h | h <;> omega
      simp only [drainAux, if_pos h4, if_neg hc]
    · simp only [drainAux, if_neg h4]

theorem drain_step (b : List Nat) (h4 : 4 ≤ b.length)
    (hc : 4 + readUInt32LE b ≤ b.length) :
    drain b = ((drain (b.drop (4 + readUInt32LE b))).1,
      ((b.drop 4).take (readUInt32LE b)) :: (drain (b.drop (4 + readUInt32LE b))).2) := by
  unfold drain
  cases hf : b.length with
  | zero => omega
  | succ f =>
    have hlen : (b.drop (4 + readUInt32LE b)).length = b.length - (4 + readUInt32LE b) :=
      List.length_drop _ _
    have heq : drainAux f (b.drop (4 + readUInt32LE b)) =
        drainAux (b.drop (4 + readUInt32LE b)).length (b.drop (4 + readUInt32LE b)) :=
      drainAux_fuel f _ _ (by omega) (Nat.le_refl _)
    simp only [drainAux, if_pos h4, if_pos hc, heq]

theorem readUInt32LE_write (n : Nat) (rest : List Nat) (h : n < 4294967296) :
    readUInt32LE (writeUInt32LE n ++ rest) = n := by
  simp only [writeUInt32LE, readUInt32LE, List.cons_append, List.nil_append,
    List.getD_cons_zero, List.getD_cons_succ]
  omega

theorem readUInt32LE_append (b c : List Nat) (h : 4 ≤ b.length) :
    readUInt32LE (b ++ c) = readUInt32LE b := by
  unfold readUInt32LE
  rw [List.getD_append _ _ _ _ (by omega), List.getD_append _ _ _ _ (by omega),
    List.getD_append _ _ _ _ (by omega), List.getD_append _ _ _ _ (by omega)]

theorem drain_encodeFrame (m rest : List Nat) (hm : m.length ≤ MAX_MESSAGE_SIZE) :
    drain (encodeFrame m ++ rest) = ((drain rest).1, m :: (drain rest).2) := by
  have hlt : m.length < 4294967296 := by
    have : MAX_MESSAGE_SIZE < 4294967296 := by decide
    omega
  have hw : (writeUInt32LE m.length).length = 4 := rfl
  have hassoc : encodeFrame m ++ rest = writeUInt32LE m.length ++ (m ++ rest) := by
    simp [encodeFrame, List.append_assoc]
  have hread : readUInt32LE (encodeFrame m ++ rest) = m.length := by
    rw [hassoc]; exact readUInt32LE_write m.length (m ++ rest) hlt
  have hlen : (encodeFrame m ++ rest).length = 4 + m.length + rest.length := by
    simp [encodeFrame, writeUInt32LE]
    omega
  have h4 : 4 ≤ (encodeFrame m ++ rest).length := by omega
  have hc : 4 + readUInt32LE (encodeFrame m ++ rest) ≤ (encodeFrame m ++ rest).length := by
    rw [hread]; omega
  rw [drain_step _ h4 hc, hread]
  have hdrop4 : (encodeFrame m ++ rest).drop 4 = m ++ rest := by
    rw [hassoc, ← hw, List.drop_left]
  have hmsg : ((encodeFrame m ++ rest).drop 4).take m.length = m := by
    rw [hdrop4, List.take_left]
  have hrest : (encodeFrame m ++ rest).drop (4 + m.length) = rest := by
    have h2 : (encodeFrame m).length = 4 + m.length := by
      simp [encodeFrame, writeUInt32LE]; omega
    rw [← h2, List.drop_left]
  rw [hmsg, hrest]

theorem drain_append (n : Nat) : ∀ b : List Nat, b.length ≤ n → ∀ c : List Nat,
    drain (b ++ c) =
      ((drain ((drain b).1 ++ c)).1, (drain b).2 ++ (drain ((drain b).1 ++ c)).2) := by
  induction n with
  | zero =>
    intro b hb c
    have hb0 : b = [] := List.eq_nil_of_length_eq_zero (Nat.le_zero.mp hb)
    subst hb0
    have h0 : drain ([] : List Nat) = ([], []) := rfl
    simp [h0]
  | succ n ih =>
    intro b hb c
    by_cases h4 : 4 ≤ b.length
    · by_cases hc : 4 + readUInt32LE b ≤ b.length
      · have hrb : readUInt32LE (b ++ c) = readUInt32LE b := readUInt32LE_append b c h4
        have h4bc : 4 ≤ (b ++ c).length := by
          rw [List.length_append]; omega
        have hcbc : 4 + readUInt32LE (b ++ c) ≤ (b ++ c).length := by
          rw [hrb, List.length_append]; omega
        have hdrop : (b ++ c).drop (4 + readUInt32LE b) = b.drop (4 + readUInt32LE b) ++ c :=
          List.drop_append_of_le_length hc
        have hdrop4 : (b ++ c).drop 4 = b.drop 4 ++ c :=
          List.drop_append_of_le_length (by omega)
        have htake : (b.drop 4 ++ c).take (readUInt32LE b) = (b.drop 4).take (readUInt32LE b) :=
          List.take_append_of_le_length (by rw [List.length_drop]; omega)
        have hlenr : (b.drop (4 + readUInt32LE b)).length ≤ n := by
          rw [List.length_drop]; omega
        rw [drain_step (b ++ c) h4bc (by rw [hrb] at hcbc ⊢; exact hcbc)]
        rw [drain_step b h4 hc]
        simp only [hrb, hdrop, hdrop4, htake]
        rw [ih (b.drop (4 + readUInt32LE b)) hlenr c]
        simp
      · have hst : drain b = (b, []) := drain_stuck b (Or.inr (by omega))
        simp [hst]
    · have hst : drain b = (b, []) := drain_stuck b (Or.inl (by omega))
      simp [hst]

theorem drain_residue (n : Nat) : ∀ b : List Nat, b.length ≤ n →
    drain ((drain b).1) = ((drain b).1, []) := by
  induction n with
  | zero =>
    intro b hb
    have hb0 : b = [] := List.eq_nil_of_length_eq_zero (Nat.le_zero.mp hb)
    subst hb0
    rfl
  | succ n ih =>
    intro b hb
    by_cases h4 : 4 ≤ b.length
    · by_cases hc : 4 + readUInt32LE b ≤ b.length
      · rw [drain_step b h4 hc]
        exact ih (b.drop (4 + readUInt32LE b)) (by rw [List.length_drop]; omega)
      · rw [drain_stuck b (Or.inr (by omega))]
        exact drain_stuck b (Or.inr (by omega))
    · rw [drain_stuck b (Or.inl (by omega))]
      exact drain_stuck b (Or.inl (by omega))

theorem feed_join (cs : List (List Nat)) : ∀ buf : List Nat, drain buf = (buf, []) →
    feed buf cs = drain (buf ++ cs.flatten) := by
  induction cs with
  | nil =>
    intro buf hbuf
    simp [feed, hbuf]
  | cons c cs ih =>
    intro buf hbuf
    have hres : drain ((handleData buf c).1) = ((handleData buf c).1, []) :=
      drain_residue (buf ++ c).length (buf ++ c) (Nat.le_refl _)
    have hjoin : buf ++ (c :: cs).flatten = (buf ++ c) ++ cs.flatten := by
      simp [List.append_assoc]
    rw [hjoin, drain_append (buf ++ c).length (buf ++ c) (Nat.le_refl _) cs.flatten]
    have ih2 : feed ((drain (buf ++ c)).1) cs = drain ((drain (buf ++ c)).1 ++ cs.flatten) :=
      ih ((drain (buf ++ c)).1) hres
    simp only [feed, handleData, ih2]

theorem drain_encodeStream (msgs : List (List Nat)) (t : List Nat)
    (hm : ∀ m ∈ msgs, m.length ≤ MAX_MESSAGE_SIZE) :
    drain (encodeStream msgs ++ t) = ((drain t).1, msgs ++ (drain t).2) := by
  induction msgs with
  | nil => simp [encodeStream]
  | cons m ms ih =>
    have hstream : encodeStream (m :: ms) ++ t = encodeFrame m ++ (encodeStream ms ++ t) := by
      simp [encodeStream, List.append_assoc]
    rw [hstream, drain_encodeFrame m _ (hm m (List.mem_cons_self m ms)),
      ih (fun a ha => hm a (List.mem_cons_of_mem m ha))]
    simp

theorem filterMap_send (ms : List (List Nat)) :
    ms.filterMap send =
      (ms.filter (fun m => decide (m.length ≤ MAX_MESSAGE_SIZE))).map encodeFrame := by
  induction ms with
  | nil => rfl
  | cons m ms ih =>
    by_cases h : m.length ≤ MAX_MESSAGE_SIZE
    · simp [send, List.filterMap_cons, List.filter_cons, h, Nat.not_lt.mpr h, ih]
    · simp [send, List.filterMap_cons, List.filter_cons, h, Nat.lt_of_not_le h, ih]

/-- C6: incremental decoding inverts length-prefixed encoding. Any chunking
of a stream of in-cap frames followed by an incomplete trailing fragment
decodes to exactly the original messages in order with the fragment retained
in the buffer; an over-cap body fails its send writing nothing; in-cap sends
produce exactly their frame; and the stream produced by any mix of in-cap
and over-cap sends decodes to exactly the in-cap messages — over-cap sends
corrupt nothing. -/
theorem C6_codec_roundtrip (msgs : List (List Nat)) (t : List Nat)
    (cs : List (List Nat)) (big : List Nat)
    (hm : ∀ m ∈ msgs, m.length ≤ MAX_MESSAGE_SIZE)
    (ht : drain t = (t, []))
    (hcs : cs.flatten = encodeStream msgs ++ t)
    (hbig : MAX_MESSAGE_SIZE < big.length) :
    feed [] cs = (t, msgs) ∧
    send big = none ∧
    (∀ m ∈ msgs, send m = some (encodeFrame m)) ∧
    (∀ ms : List (List Nat), drain (sendAll ms) =
      ([], ms.filter (fun m => decide (m.length ≤ MAX_MESSAGE_SIZE)))) := by
  refine ⟨?_, ?_, ?_, ?_⟩
  · rw [feed_join cs [] rfl]
    simp only [List.nil_append, hcs]
    rw [drain_encodeStream msgs t hm, ht]
    simp
  · simp [send, hbig]
  · intro m hmm
    simp [send, Nat.not_lt.mpr (hm m hmm)]
  · intro ms
    have h0 : drain ([] : List Nat) = ([], []) := rfl
    rw [sendAll, filterMap_send]
    have := drain_encodeStream (ms.filter (fun m => decide (m.length ≤ MAX_MESSAGE_SIZE))) []
      (fun a ha => by
        have hf2 := List.of_mem_filter ha
        simpa using hf2)
    rw [encodeStream] at this
    simpa [h0] using this

/-- Witness for C6: the frames `[1,2]` and `[3]` split across chunk
boundaries, with trailing fragment `[9]`; an over-cap send fails. -/
theorem C6_codec_roundtrip_witness :
    drain [9] = ([9], []) ∧
    ([[2, 0, 0, 0, 1], [2, 1, 0, 0, 0], [3, 9]] : List (List Nat)).flatten =
      encodeStream [[1, 2], [3]] ++ [9] ∧
    feed [] [[2, 0, 0, 0, 1], [2, 1, 0, 0, 0], [3, 9]] = ([9], [[1, 2], [3]]) ∧
    send (List.replicate (MAX_MESSAGE_SIZE + 1) 0) = none :=
  ⟨by decide, by decide,
   (C6_codec_roundtrip [[1, 2], [3]] [9] [[2, 0, 0, 0, 1], [2, 1, 0, 0, 0], [3, 9]]
      (List.replicate (MAX_MESSAGE_SIZE + 1) 0) (by decide) (by decide) (by decide)
      (by rw [List.length_replicate]; omega)).1,
   (C6_codec_roundtrip [[1, 2], [3]] [9] [[2, 0, 0, 0, 1], [2, 1, 0, 0, 0], [3, 9]]
      (List.replicate (MAX_MESSAGE_SIZE + 1) 0) (by decide) (by decide) (by decide)
      (by rw [List.length_replicate]; omega)).2.1⟩

end NativeMessaging

namespace CDPTargets

/-- A discovery-listing entry returned by the remote endpoint's /json/list. -/
structure Target where
  id : String
  type : String
  title : String
  url : String
  webSocketDebuggerUrl : String
deriving Repr, DecidableEq

/-- Target selection of `CDPClient.connectToTarget`: the target with the
named id, else the first page-type target when no id is named; with no such
target the call throws `No suitable target found`. -/
def connectToTarget (targets : List Target) (targetId : Option String) :
    Except String Target :=
  match (match targetId with
    | some tid => targets.find? (fun t => t.id == tid)
    | none => targets.find? (fun t => t.type == "page")) with
  | none => Except.error "No suitable target found"
  | some t => Except.ok t

theorem find_skip {α : Type} (p : α → Bool) (l1 l2 : List α)
    (h : ∀ u ∈ l1, p u = false) : List.find? p (l1 ++ l2) = List.find? p l2 := by
  induction l1 with
  | nil => rfl
  | cons a l1 ih =>
    rw [List.cons_append, List.find?_cons, h a (List.mem_cons_self a l1)]
    exact ih (fun u hu => h u (List.mem_cons_of_mem a hu))

/-- C8: `connectToTarget` with a named id attaches to the target with that
id; with no id it attaches to the first page-type target of the listing; and
when no matching target exists — in particular with zero targets — it fails
with the no-target error rather than hanging. -/
theorem C8_connect_selects_target (targets l1 l2 : List Target) (tid : String) (t : Target)
    (hsplit : targets = l1 ++ t :: l2) :
    (connectToTarget [] (some tid) = Except.error "No suitable target found" ∧
     connectToTarget [] none = Except.error "No suitable target found") ∧
    (∀ u, connectToTarget targets (some tid) = Except.ok u → u ∈ targets ∧ u.id = tid) ∧
    ((∃ u ∈ targets, u.id = tid) →
      ∃ u, connectToTarget targets (some tid) = Except.ok u ∧ u.id = tid) ∧
    (∀ u, connectToTarget targets none = Except.ok u → u ∈ targets ∧ u.type = "page") ∧
    (t.type = "page" → (∀ u ∈ l1, u.type ≠ "page") →
      connectToTarget targets none = Except.ok t) ∧
    ((∀ u ∈ targets, u.type ≠ "page") →
      connectToTarget targets none = Except.error "No suitable target found") := by
  refine ⟨⟨rfl, rfl⟩, ?_, ?_, ?_, ?_, ?_⟩
  · intro u hu
    cases hf : targets.find? (fun x => x.id == tid) with
    | none => simp [connectToTarget, hf] at hu
    | some v =>
      simp only [connectToTarget, hf] at hu
      cases hu
      exact ⟨List.mem_of_find?_eq_some hf, by simpa using List.find?_some hf⟩
  · intro hex
    have hsome : (targets.find? (fun x => x.id == tid)).isSome := by
      rw [List.find?_isSome]
      obtain ⟨u, hu, hid⟩ := hex
      exact ⟨u, hu, by simpa using hid⟩
    cases hf : targets.find? (fun x => x.id == tid) with
    | none => rw [hf] at hsome; simp at hsome
    | some v =>
      exact ⟨v, by simp [connectToTarget, hf], by simpa using List.find?_some hf⟩
  · intro u hu
    cases hf : targets.find? (fun x => x.type == "page") with
    | none => simp [connectToTarget, hf] at hu
    | some v =>
      simp only [connectToTarget, hf] at hu
      cases hu
      exact ⟨List.mem_of_find?_eq_some hf, by simpa using List.find?_some hf⟩
  · intro hpage hskip
    have hf : targets.find? (fun x => x.type == "page") = some t := by
      rw [hsplit, find_skip _ l1 _ (fun u hu => by simpa using hskip u hu),
        List.find?_cons, show (t.type == "page") = true by simpa using hpage]
    simp [connectToTarget, hf]
  · intro hnone
    have hf : targets.find? (fun x => x.type == "page") = none := by
      rw [List.find?_eq_none]
      intro u hu
      simpa using hnone u hu
    simp [connectToTarget, hf]

/-- Witness for C8: a listing whose second entry is the first page target. -/
theorem C8_connect_selects_target_witness :
    ([Target.mk "a" "background" "" "" "", Target.mk "b" "page" "" "" ""] =
      [Target.mk "a" "background" "" "" ""] ++ Target.mk "b" "page" "" "" "" :: []) ∧
    connectToTarget [] (some "b") = Except.error "No suitable target found" ∧
    connectToTarget [Target.mk "a" "background" "" "" "", Target.mk "b" "page" "" "" ""] none =
      Except.ok (Target.mk "b" "page" "" "" "") :=
  ⟨by decide,
   (C8_connect_selects_target [Target.mk "a" "background" "" "" "",
      Target.mk "b" "page" "" "" ""] [Target.mk "a" "background" "" "" ""] []
      "b" (Target.mk "b" "page" "" "" "") (by decide)).1.1,
   ((C8_connect_selects_target [Target.mk "a" "background" "" "" "",
      Target.mk "b" "page" "" "" ""] [Target.mk "a" "background" "" "" ""] []
      "b" (Target.mk "b" "page" "" "" "") (by decide)).2.2.2.2.1 (by decide)
      (by decide))⟩

end CDPTargets

namespace WebSocketClient

/-- Base retry delay of the WSL bridge uplink, in milliseconds. -/
def RECONNECT_DELAY : Nat := 2000

/-- Maximum number of reconnection attempts before giving up permanently. -/
def MAX_RECONNECT_ATTEMPTS : Nat := 50

/-- `WebSocketClient.attemptReconnect`: no retry when closing deliberately or
when the attempt cap is reached; otherwise advance the attempt counter and
schedule `connect` after `RECONNECT_DELAY * min(reconnectAttempts, 5)` ms.
Returns the new counter and the scheduled delay, or `none` when the loop
stops. -/
def attemptReconnect (shouldReconnect : Bool) (reconnectAttempts : Nat) :
    Option (Nat × Nat) :=
  if !shouldReconnect then none
  else if MAX_RECONNECT_ATTEMPTS ≤ reconnectAttempts then none
  else some (reconnectAttempts + 1, RECONNECT_DELAY * min (reconnectAttempts + 1) 5)

/-- One failed connection cycle: the close handler runs `attemptReconnect`;
if a retry was scheduled, count it. State: (reconnectAttempts, retries
scheduled so far). -/
def failStep (s : Nat × Nat) : Nat × Nat :=
  match attemptReconnect true s.1 with
  | none => s
  | some (a, _) => (a, s.2 + 1)

/-- `N` consecutive connection failures starting from a fresh client. -/
def failRun : Nat → Nat × Nat
  | 0 => (0, 0)
  | n + 1 => failStep (failRun n)

theorem failRun_spec (n : Nat) :
    failRun n = (min n MAX_RECONNECT_ATTEMPTS, min n MAX_RECONNECT_ATTEMPTS) := by
  induction n with
  | zero => simp [failRun]
  | succ n ih =>
    by_cases h : n < MAX_RECONNECT_ATTEMPTS
    · have h1 : min n MAX_RECONNECT_ATTEMPTS = n := by omega
      have h2 : min (n + 1) MAX_RECONNECT_ATTEMPTS = n + 1 := by omega
      rw [failRun, ih, h1, h2]
      simp [failStep, attemptReconnect, Nat.not_le.mpr h]
    · have h1 : min n MAX_RECONNECT_ATTEMPTS = MAX_RECONNECT_ATTEMPTS := by omega
      have h2 : min (n + 1) MAX_RECONNECT_ATTEMPTS = MAX_RECONNECT_ATTEMPTS := by omega
      rw [failRun, ih, h1, h2]
      simp [failStep, attemptReconnect]

/-- C7: over any `N` consecutive failures the number of scheduled retries
never exceeds the attempt cap; the delay before the k-th retry is
non-decreasing in k and capped at five times the base delay; once the cap is
reached `attemptReconnect` schedules nothing and the state never changes
again — the loop stops permanently. -/
theorem C7_reconnect_attempts_bounded (N k k2 a : Nat) (hk : k ≤ k2)
    (ha : MAX_RECONNECT_ATTEMPTS ≤ a) :
    (failRun N).2 ≤ MAX_RECONNECT_ATTEMPTS ∧
    RECONNECT_DELAY * min k 5 ≤ RECONNECT_DELAY * min k2 5 ∧
    RECONNECT_DELAY * min k 5 ≤ RECONNECT_DELAY * 5 ∧
    attemptReconnect true a = none ∧
    (MAX_RECONNECT_ATTEMPTS ≤ N → failRun (N + 1) = failRun N) := by
  refine ⟨?_, ?_, ?_, ?_, ?_⟩
  · rw [failRun_spec]; simp [Nat.min_le_right]
  · exact Nat.mul_le_mul_left RECONNECT_DELAY (by omega)
  · exact Nat.mul_le_mul_left RECONNECT_DELAY (Nat.min_le_right k 5)
  · simp [attemptReconnect, ha]
  · intro hN
    rw [failRun_spec, failRun_spec]
    have : min (N + 1) MAX_RECONNECT_ATTEMPTS = min N MAX_RECONNECT_ATTEMPTS := by omega
    rw [this]

/-- Witness for C7: 60 consecutive failures schedule at most 50 retries; the
delay is monotone from attempt 2 to 3; attempt 50 schedules nothing. -/
theorem C7_reconnect_attempts_bounded_witness :
    (2 ≤ 3 ∧ MAX_RECONNECT_ATTEMPTS ≤ 50) ∧
    ((failRun 60).2 ≤ MAX_RECONNECT_ATTEMPTS ∧
     RECONNECT_DELAY * min 2 5 ≤ RECONNECT_DELAY * min 3 5 ∧
     RECONNECT_DELAY * min 2 5 ≤ RECONNECT_DELAY * 5 ∧
     attemptReconnect true 50 = none ∧
     (MAX_RECONNECT_ATTEMPTS ≤ 60 → failRun (60 + 1) = failRun 60)) :=
  ⟨⟨by decide, by decide⟩,
   C7_reconnect_attempts_bounded 60 2 3 50 (by decide) (by decide)⟩

/-- `WebSocketClient.send` on the WSL bridge uplink, guarded by
`isConnected()`: transmit the message only when the connected flag is set,
the socket object exists and its readyState is OPEN; otherwise return
normally transmitting and buffering nothing. The returned list is what
reaches the wire. -/
def clientSend (connected wsPresent : Bool) (readyState : Nat) (message : String) :
    List String :=
  if connected && wsPresent && (readyState == 1) then [message] else []

end WebSocketClient

namespace WSLBridge

/-- The near-far envelope built by `forwardToWindows`. -/
structure BridgeMessage where
  id : String
  direction : String
  timestamp : Nat
  payload : String
deriving Repr, DecidableEq

/-- The fresh envelope id minted per forwarded frame from the current time
and a random suffix. -/
def mkId (now : Nat) (nonce : String) : String := toString now ++ "-" ++ nonce

/-- `WSLBridge.forwardToWindows`: when the uplink is not connected, warn and
drop the local frame; otherwise wrap it in a fresh-id `to-chrome` envelope
carrying the frame as payload and send it upstream. -/
def forwardToWindows (connected : Bool) (now : Nat) (nonce : String)
    (message : String) : Option BridgeMessage :=
  if !connected then none
  else some ⟨mkId now nonce, "to-chrome", now, message⟩

/-- `WSLBridge.forwardToClaudeCode`: with no local peer attached, warn and
drop the inbound envelope (never queued); drop envelopes whose direction is
not `from-chrome`; otherwise write exactly the envelope's payload to the
local peer. -/
def forwardToClaudeCode (claudeClientAttached : Bool) (bm : BridgeMessage) :
    Option String :=
  if !claudeClientAttached then none
  else if bm.direction != "from-chrome" then none
  else some bm.payload

/-- C9 as stated is false on the code at a concrete input: a frame received
from the local peer while the uplink is not connected is dropped with a
warning — no envelope is wrapped or sent upstream. -/
theorem C9_counterexample :
    forwardToWindows false 0 "n" "frame" = none := by
  decide

/-- C9 amended: while the uplink is connected, a local frame is forwarded
upstream wrapped in a `to-chrome` envelope with a fresh id, the current
timestamp and the frame as unmodified payload — with the uplink down it is
dropped with a warning; a `from-chrome` envelope from upstream is written to
the attached local peer as exactly its payload; with no local peer attached
it is dropped, never queued. -/
theorem C9_bridge_forwarding (now : Nat) (nonce msg : String) (bm : BridgeMessage)
    (hdir : bm.direction = "from-chrome") :
    forwardToWindows true now nonce msg =
      some ⟨mkId now nonce, "to-chrome", now, msg⟩ ∧
    forwardToWindows false now nonce msg = none ∧
    forwardToClaudeCode true bm = some bm.payload ∧
    forwardToClaudeCode false bm = none := by
  refine ⟨rfl, rfl, ?_, rfl⟩
  simp [forwardToClaudeCode, hdir]

/-- Witness for C9 at a concrete envelope and frame. -/
theorem C9_bridge_forwarding_witness :
    (BridgeMessage.mk "x" "from-chrome" 3 "payload").direction = "from-chrome" ∧
    (forwardToWindows true 7 "abc" "frame" =
       some ⟨mkId 7 "abc", "to-chrome", 7, "frame"⟩ ∧
     forwardToWindows false 7 "abc" "frame" = none ∧
     forwardToClaudeCode true (BridgeMessage.mk "x" "from-chrome" 3 "payload") =
       some "payload" ∧
     forwardToClaudeCode false (BridgeMessage.mk "x" "from-chrome" 3 "payload") = none) :=
  ⟨by decide,
   C9_bridge_forwarding 7 "abc" "frame" (BridgeMessage.mk "x" "from-chrome" 3 "payload")
     (by decide)⟩

end WSLBridge

namespace WSClient

/-- The ws library constant `WebSocket.OPEN`. -/
def OPEN : Nat := 1

/-- `WSClient.send` on the Windows host: stringify and transmit only when
`this.ws.readyState === WebSocket.OPEN`; otherwise return normally,
transmitting and buffering nothing. The returned list is what reaches the
wire. -/
def send (readyState : Nat) (message : String) : List String :=
  if readyState == OPEN then [message] else []

/-- C10: a send on a socket that is not OPEN — on the Windows host's
per-client wrapper or on the WSL bridge uplink (also whenever its connected
flag or socket object is absent) — returns normally, transmits nothing and
buffers nothing, so the message can neither crash the process nor be
delivered later. -/
theorem C10_send_silently_dropped_when_not_open (readyState : Nat)
    (connected wsPresent : Bool) (msg : String) (h : readyState ≠ OPEN) :
    send readyState msg = [] ∧
    WebSocketClient.clientSend connected wsPresent readyState msg = [] ∧
    (∀ rs : Nat, ∀ w : Bool, ∀ m : String,
      WebSocketClient.clientSend false w rs m = []) := by
  refine ⟨?_, ?_, fun rs w m => rfl⟩
  · simp [send, h]
  · have hne : (readyState == 1) = false := by
      simpa [OPEN] using h
    simp [WebSocketClient.clientSend, hne]

/-- Witness for C10: readyState CONNECTING (0) drops the message. -/
theorem C10_send_silently_dropped_when_not_open_witness :
    (0 ≠ OPEN) ∧
    (send 0 "hello" = [] ∧
     WebSocketClient.clientSend true true 0 "hello" = [] ∧
     (∀ rs : Nat, ∀ w : Bool, ∀ m : String,
       WebSocketClient.clientSend false w rs m = [])) :=
  ⟨by decide, C10_send_silently_dropped_when_not_open 0 true true "hello" (by decide)⟩

end WSClient
